import Mathlib

/-!
Verification of the ITD/JND experiment repository.

The development shallowly embeds the two Python source files:

* `itd_generate.py` — the `generate_ITD` class: the Woodworth interaural-delay
  model, a simple interaural-level model, the fractional-sample shifter built
  on `np.interp`, and `apply_itd`, which turns a mono signal and an azimuth
  angle into a stereo pair.
* `jnd_exps.py` — the `jnd_experiment` class: the adaptive-staircase 2AFC
  controller (`trial_run`, `adjust_angle`, `run`).

Machine floats are modelled as exact numbers: the signal path uses `ℝ`
(the Woodworth model involves `π` and `sin`), while the staircase state uses
`ℚ` (its arithmetic is rational: `* 0.8`, `* 1.25`, `min`, `max`).
Side-effecting collaborators (playback, plotting, the input prompt, file
saving) are outside the embedded core: the participant's keypresses and the
random draws of `trial_run` enter as explicit per-trial inputs.
Python functions that can raise are embedded with `Except`; a Python function
that falls off its end returns `Option.none` inside the `Except`.
-/

/-! ## `generate_ITD` (src/src/itd_generate.py) -/

/-- The `generate_ITD` object: the three constructor parameters stored by
`generate_ITD.__init__`.  Python defaults: `sample_rate=44100`,
`avg_head_r=0.0875`, `speed_of_sound=343.0`. -/
structure generate_ITD where
  sample_rate : ℝ
  avg_head_r : ℝ
  speed_of_sound : ℝ

/-- `generate_ITD.__init__`: it only stores its three arguments.  It is
embedded as an `Except` to make explicit that the constructor performs no
validation and can never raise. -/
def generate_ITD_init (sample_rate avg_head_r speed_of_sound : ℝ) :
    Except String generate_ITD :=
  Except.ok ⟨sample_rate, avg_head_r, speed_of_sound⟩

/-- The generator built with all Python default parameters,
`generate_ITD()`. -/
noncomputable def defaultGen : generate_ITD :=
  ⟨44100, 0.0875, 343⟩

/-- `generate_ITD.woodworth_model`: `theta = np.radians(angle_deg)`,
`theta_c = np.clip(theta, -pi/2, pi/2)`, and the returned delay is
`(avg_head_r / speed_of_sound) * (theta_c + sin(theta_c))`.
`np.clip(a, lo, hi)` is `min(hi, max(a, lo))`. -/
noncomputable def woodworth_model (g : generate_ITD) (angle_deg : ℝ) : ℝ :=
  let theta := angle_deg * (Real.pi / 180)
  let theta_c := min (max theta (-(Real.pi / 2))) (Real.pi / 2)
  (g.avg_head_r / g.speed_of_sound) * (theta_c + Real.sin theta_c)

/-- `generate_ITD.simple_ild`: `np.clip((angle_deg/90) * max_ild, -max_ild,
max_ild)`.  The Python default `max_ild = 6.0` is passed explicitly at the
call site. -/
noncomputable def simple_ild (angle_deg max_ild : ℝ) : ℝ :=
  min (max ((angle_deg / 90) * max_ild) (-max_ild)) max_ild

/-- `np.interp(q, np.arange(len(x)), x, left=0.0, right=0.0)`: linear
interpolation of the samples `x` on the integer grid `0, …, len(x) - 1`,
with queries outside the grid mapped to `0`.  Stated over any ordered field
with a floor so that it can be evaluated on `ℚ` and reasoned about on `ℝ`. -/
def np_interp {α : Type} [LinearOrderedField α] [FloorRing α]
    (q : α) (x : List α) : α :=
  if q < 0 ∨ ((x.length : α) - 1) < q then 0
  else
    let k := (⌊q⌋).toNat
    if k + 1 < x.length then
      (1 - (q - (k : α))) * x.getD k 0 + (q - (k : α)) * x.getD (k + 1) 0
    else x.getD k 0

/-- `generate_ITD.fractional_shift`: `t = np.arange(n)`, `t_src = t -
sample_shift`, `y = np.interp(t_src, t, x, left=0.0, right=0.0)`.  Output
index `i` reads the input at source position `i - sample_shift`. -/
def fractional_shift {α : Type} [LinearOrderedField α] [FloorRing α]
    (x : List α) (sample_shift : α) : List α :=
  (List.range x.length).map
    (fun i : ℕ => np_interp ((i : α) - sample_shift) x)

/-- The stereo pair built by `generate_ITD.apply_itd` before peak
normalisation (the body of the `if use_ild` branch up to `np.column_stack`):
the interaural delay is split symmetrically, the far ear is delayed, and the
per-ear ILD gains `10 ** ((±ild/20)/2)` are applied. -/
noncomputable def ild_stereo (g : generate_ITD) (mono_signal : List ℝ)
    (angle_deg : ℝ) : List (ℝ × ℝ) :=
  let itd_sec := woodworth_model g angle_deg
  let d_samples := itd_sec * g.sample_rate
  let shift_left := 0.5 * |d_samples|
  let shift_right := -0.5 * |d_samples|
  let lr : List ℝ × List ℝ :=
    if 0 ≤ angle_deg then
      (fractional_shift mono_signal shift_left,
       fractional_shift mono_signal shift_right)
    else
      (fractional_shift mono_signal shift_right,
       fractional_shift mono_signal shift_left)
  let ild := simple_ild angle_deg 6
  let increase_R := (10 : ℝ) ^ ((ild / 20) / 2)
  let increase_L := (10 : ℝ) ^ ((-ild / 20) / 2)
  (lr.1.map (fun v => v * increase_L)).zip (lr.2.map (fun v => v * increase_R))

/-- `np.max(np.abs(stereo_signal))` over an `[N, 2]` array, with `0` for the
empty list (the empty case is unreachable below: `apply_itd` raises on it,
as `np.max` does on a zero-size array). -/
noncomputable def peakAbs (st : List (ℝ × ℝ)) : ℝ :=
  st.foldr (fun p m => max |p.1| (max |p.2| m)) 0

/-- `generate_ITD.apply_itd`.  The returned value distinguishes the three
ways the Python function can end: `Except.error` when `np.max` raises on a
zero-size array, `Except.ok none` when `use_ild` is false and control falls
off the end of the function (Python returns `None`), and `Except.ok (some
stereo)` for the normal path, which peak-normalises only when the peak
exceeds `1.0`. -/
noncomputable def apply_itd (g : generate_ITD) (mono_signal : List ℝ)
    (angle_deg : ℝ) (use_ild : Bool) :
    Except String (Option (List (ℝ × ℝ))) :=
  if use_ild then
    let stereo_signal := ild_stereo g mono_signal angle_deg
    if stereo_signal.isEmpty then
      Except.error "zero-size array to reduction operation"
    else
      let peak_norm := peakAbs stereo_signal
      Except.ok (some
        (if 1 < peak_norm then
          stereo_signal.map (fun p => (p.1 / peak_norm, p.2 / peak_norm))
        else stereo_signal))
  else
    Except.ok none

/-- `peakLeOne r` says: if `apply_itd` returned a stereo signal at all, its
peak absolute amplitude is at most `1`. -/
def peakLeOne : Except String (Option (List (ℝ × ℝ))) → Prop
  | Except.ok (some st) => peakAbs st ≤ 1
  | _ => True

/-! ## `jnd_experiment` (src/jnd_exps.py) -/

/-- The staircase step direction recorded in `last_direction`
(the Python strings `'up'` / `'down'`). -/
inductive Direction : Type
  | up : Direction
  | down : Direction
deriving DecidableEq

/-- The per-trial external inputs of `jnd_experiment.trial_run`: the draw
`random.choice([-1, 1])` (`sign = true` for `+1`), the draw
`random.choice([0, 1])` (`order = false` for `0`), and the participant's
response string from `input(...)`. -/
structure TrialInput where
  sign : Bool
  order : Bool
  response : String

/-- The mutable staircase state of a `jnd_experiment` object (the plotting
handles and the pre-generated tone are external collaborators and carry no
staircase information). -/
structure JndState where
  angle : ℚ
  min_angle : ℚ
  max_angle : ℚ
  max_trials : ℕ
  correct_streak : ℕ
  reversals : ℕ
  last_direction : Option Direction
  history_angle : List ℚ
  history_correct : List Bool
deriving DecidableEq

/-- `jnd_experiment.__init__ (max_trials, start_angle, min_angle,
max_angle)`: it stores the configuration and zero-initialises the staircase
state.  Embedded as an `Except` to make explicit that the constructor
performs no validation of its arguments and never raises. -/
def jnd_init (max_trials : ℕ) (start_angle min_angle max_angle : ℚ) :
    Except String JndState :=
  Except.ok
    { angle := start_angle
      min_angle := min_angle
      max_angle := max_angle
      max_trials := max_trials
      correct_streak := 0
      reversals := 0
      last_direction := none
      history_angle := []
      history_correct := [] }

/-- The state built by `jnd_experiment()` with the Python defaults
`max_trials=10, start_angle=10.0, min_angle=0.0, max_angle=90.0`. -/
def initState : JndState :=
  { angle := 10
    min_angle := 0
    max_angle := 90
    max_trials := 10
    correct_streak := 0
    reversals := 0
    last_direction := none
    history_angle := []
    history_correct := [] }

/-- `jnd_experiment.adjust_angle (difficulty)`: shrink the angle towards
`min_angle` by `* 0.8` (direction `'down'`) when `difficulty` is true, else
grow it towards `max_angle` by `* 1.25` (direction `'up'`); count a reversal
when a previous direction exists and differs from the new one
(`if self.last_direction and new_direction != self.last_direction`). -/
def adjust_angle (s : JndState) (difficulty : Bool) : JndState :=
  let p : ℚ × Direction :=
    if difficulty then (max s.min_angle (s.angle * 0.8), Direction.down)
    else (min s.max_angle (s.angle * 1.25), Direction.up)
  let reversals :=
    match s.last_direction with
    | none => s.reversals
    | some d => if p.2 ≠ d then s.reversals + 1 else s.reversals
  { s with angle := p.1, reversals := reversals, last_direction := some p.2 }

/-- The signed target angle of a trial:
`random.choice([-1, 1]) * self.angle`. -/
def target_angle (s : JndState) (i : TrialInput) : ℚ :=
  (if i.sign then 1 else -1) * s.angle

/-- The correct response label of a trial, from the presentation order and
the sign of the target angle (`'2' if target_angle < 0 else '1'` for order
`0`, mirrored for order `1`). -/
def correct_response (target : ℚ) (i : TrialInput) : String :=
  if i.order = false then (if target < 0 then "2" else "1")
  else (if target < 0 then "1" else "2")

/-- The scoring of `jnd_experiment.trial_run`: a response outside
`["1", "2"]` is scored incorrect, otherwise the response is compared with
the correct label. -/
def is_correct (s : JndState) (i : TrialInput) : Bool :=
  if i.response ≠ "1" ∧ i.response ≠ "2" then false
  else decide (i.response = correct_response (target_angle s i) i)

/-- The staircase update of `jnd_experiment.trial_run`: on a correct trial
increment `correct_streak` and, once it is `≥ 2`, call
`adjust_angle(difficulty=False)`.  Nothing happens on an incorrect trial,
and `correct_streak` is never reset. -/
def stepStair (s : JndState) (c : Bool) : JndState :=
  if c then
    let s1 := { s with correct_streak := s.correct_streak + 1 }
    if 2 ≤ s1.correct_streak then adjust_angle s1 false else s1
  else s

/-- `jnd_experiment.trial_run`, as a state transformer on the staircase
state: score the response, update the staircase, and append the target angle
and the correctness to the history logs (playback and plotting are external
side effects with no influence on the state). -/
def trial_run (s : JndState) (i : TrialInput) : JndState :=
  let t := target_angle s i
  let c := is_correct s i
  let s1 := stepStair s c
  { s1 with
    history_angle := s1.history_angle ++ [t]
    history_correct := s1.history_correct ++ [c] }

/-- The loop of `jnd_experiment.run`, with `fuel = max_trials - trial`
(legitimate since `trial_run` never changes `max_trials`): iterate
`trial_run` while `trial < max_trials and reversals < 10`, feeding trial
number `trial` the external input `inputs trial`. -/
def runAux (inputs : ℕ → TrialInput) : ℕ → ℕ → JndState → JndState
  | _, 0, s => s
  | trial, fuel + 1, s =>
    if s.reversals < 10 then
      runAux inputs (trial + 1) fuel (trial_run s (inputs trial))
    else s

/-- `jnd_experiment.run`: the full session loop starting at trial `0`. -/
def run (inputs : ℕ → TrialInput) (s : JndState) : JndState :=
  runAux inputs 0 s.max_trials s

/-- Run `trial_run` over an explicit finite list of per-trial inputs. -/
def runTrials (s : JndState) : List TrialInput → JndState
  | [] => s
  | i :: rest => runTrials (trial_run s i) rest

/-- The probe-angle trajectory of a finite run: the current probe angle
before each trial, plus the final angle. -/
def angleTraj (s : JndState) : List TrialInput → List ℚ
  | [] => [s.angle]
  | i :: rest => s.angle :: angleTraj (trial_run s i) rest

/-- The invariant maintained by an ordinary session: no reversal has been
counted and the last step direction is not `'down'`. -/
def UpOnly (s : JndState) : Prop :=
  s.reversals = 0 ∧ s.last_direction ≠ some Direction.down

/-! ## Helper lemmas -/

/-- `trial_run` appends exactly one entry, the trial's correctness, to
`history_correct`. -/
theorem trial_run_history_correct (s : JndState) (i : TrialInput) :
    (trial_run s i).history_correct = s.history_correct ++ [is_correct s i] := by
  unfold trial_run stepStair adjust_angle
  dsimp only
  split <;> (try split) <;> rfl

/-- `trial_run` appends exactly one entry, the trial's target angle, to
`history_angle`. -/
theorem trial_run_history_angle (s : JndState) (i : TrialInput) :
    (trial_run s i).history_angle = s.history_angle ++ [target_angle s i] := by
  unfold trial_run stepStair adjust_angle
  dsimp only
  split <;> (try split) <;> rfl

/-- `trial_run` never changes `max_trials`. -/
theorem trial_run_max_trials (s : JndState) (i : TrialInput) :
    (trial_run s i).max_trials = s.max_trials := by
  unfold trial_run stepStair adjust_angle
  dsimp only
  split <;> (try split) <;> rfl

/-- The probe angle after a trial, as a function of the scored correctness:
unchanged on an incorrect trial, and stepped by `* 1.25` (clipped at
`max_angle`) exactly when the incremented streak has reached `2`. -/
theorem trial_run_angle (s : JndState) (i : TrialInput) :
    (trial_run s i).angle =
      if is_correct s i then
        (if 2 ≤ s.correct_streak + 1 then min s.max_angle (s.angle * 1.25)
         else s.angle)
      else s.angle := by
  unfold trial_run stepStair adjust_angle
  dsimp only
  split <;> (try split) <;> rfl

/-- The streak after a trial: incremented on a correct trial, untouched
otherwise — in particular it is never reset. -/
theorem trial_run_streak (s : JndState) (i : TrialInput) :
    (trial_run s i).correct_streak =
      if is_correct s i then s.correct_streak + 1 else s.correct_streak := by
  unfold trial_run stepStair adjust_angle
  dsimp only
  split <;> (try split) <;> rfl

/-- `trial_run` never changes `max_angle`. -/
theorem trial_run_max_angle (s : JndState) (i : TrialInput) :
    (trial_run s i).max_angle = s.max_angle := by
  unfold trial_run stepStair adjust_angle
  dsimp only
  split <;> (try split) <;> rfl

/-- A single trial preserves the `UpOnly` invariant: the only adjustment the
controller ever performs is `adjust_angle(difficulty=False)`, whose
direction is `'up'`, so no reversal can be counted. -/
theorem trial_run_upOnly (s : JndState) (i : TrialInput) (h : UpOnly s) :
    UpOnly (trial_run s i) := by
  obtain ⟨hrev, hdir⟩ := h
  unfold trial_run stepStair adjust_angle UpOnly
  dsimp only
  split
  · split
    · constructor
      · simp only
        cases hd : s.last_direction with
        | none => simpa using hrev
        | some d =>
          cases d with
          | up => simpa using hrev
          | down => exact absurd hd hdir
      · simp
    · exact ⟨hrev, hdir⟩
  · exact ⟨hrev, hdir⟩

/-- The session loop under the `UpOnly` invariant: every iteration passes
the `reversals < 10` check, so the loop runs for its full fuel, appending
one record to each history per iteration, preserving the invariant and
`max_trials`. -/
theorem runAux_upOnly (inputs : ℕ → TrialInput) (fuel : ℕ) :
    ∀ (trial : ℕ) (s : JndState), UpOnly s →
      UpOnly (runAux inputs trial fuel s) ∧
      (runAux inputs trial fuel s).history_correct.length
        = s.history_correct.length + fuel ∧
      (runAux inputs trial fuel s).history_angle.length
        = s.history_angle.length + fuel ∧
      (runAux inputs trial fuel s).max_trials = s.max_trials := by
  induction fuel with
  | zero =>
    intro trial s h
    exact ⟨h, rfl, rfl, rfl⟩
  | succ n ih =>
    intro trial s h
    have h10 : s.reversals < 10 := by rw [h.1]; norm_num
    rw [runAux, if_pos h10]
    obtain ⟨h1, h2, h3, h4⟩ :=
      ih (trial + 1) (trial_run s (inputs trial))
        (trial_run_upOnly s (inputs trial) h)
    refine ⟨h1, ?_, ?_, ?_⟩
    · rw [h2, trial_run_history_correct, List.length_append]
      simp
      omega
    · rw [h3, trial_run_history_angle, List.length_append]
      simp
      omega
    · rw [h4, trial_run_max_trials]

/-- C6: from a state with no prior step direction, the adjustment sequence
up, down, up, down (difficulty flags `false, true, false, true`) increments
`reversals` exactly 3 times: once on each change of direction and not when
the first direction is set. -/
theorem adjust_angle_reversal_sequence (s : JndState)
    (h : s.last_direction = none) :
    (adjust_angle (adjust_angle (adjust_angle (adjust_angle s false) true)
      false) true).reversals = s.reversals + 3 := by
  simp [adjust_angle, h]

/-- Witness for `adjust_angle_reversal_sequence`, at the default start
state built by `jnd_experiment()`. -/
theorem adjust_angle_reversal_sequence_witness :
    (adjust_angle (adjust_angle (adjust_angle (adjust_angle initState false)
      true) false) true).reversals = initState.reversals + 3 :=
  adjust_angle_reversal_sequence initState rfl

/-- C8: a response outside the two accepted labels `"1"`/`"2"` is scored as
an incorrect trial: the record appended to `history_correct` is `false`,
the probe angle and the streak are untouched, and the trial completes
normally, appending exactly one record to each log (no retry, no error). -/
theorem invalid_response_incorrect (s : JndState) (i : TrialInput)
    (h1 : i.response ≠ "1") (h2 : i.response ≠ "2") :
    (trial_run s i).history_correct = s.history_correct ++ [false] ∧
    (trial_run s i).history_angle = s.history_angle ++ [target_angle s i] ∧
    (trial_run s i).angle = s.angle ∧
    (trial_run s i).correct_streak = s.correct_streak := by
  have hc : is_correct s i = false := by simp [is_correct, h1, h2]
  refine ⟨?_, trial_run_history_angle s i, ?_, ?_⟩
  · rw [trial_run_history_correct, hc]
  · rw [trial_run_angle, hc]
    simp
  · rw [trial_run_streak, hc]
    simp

/-- Witness for `invalid_response_incorrect`: the response `"x"` at the
default start state. -/
theorem invalid_response_incorrect_witness :
    (trial_run initState ⟨true, false, "x"⟩).history_correct
        = initState.history_correct ++ [false] ∧
    (trial_run initState ⟨true, false, "x"⟩).history_angle
        = initState.history_angle
          ++ [target_angle initState ⟨true, false, "x"⟩] ∧
    (trial_run initState ⟨true, false, "x"⟩).angle = initState.angle ∧
    (trial_run initState ⟨true, false, "x"⟩).correct_streak
        = initState.correct_streak :=
  invalid_response_incorrect initState ⟨true, false, "x"⟩
    (by decide) (by decide)

/-- C7: a session started with `max_trials = 5`, no reversal counted and no
prior step direction never trips the reversal-based stop (its reversal
count stays `0 < 10`), so the loop completes all 5 trials and appends
exactly 5 trial records. -/
theorem session_five_records (inputs : ℕ → TrialInput) (s : JndState)
    (h5 : s.max_trials = 5) (hrev : s.reversals = 0)
    (hdir : s.last_direction = none) :
    (run inputs s).history_correct.length = s.history_correct.length + 5 ∧
    (run inputs s).history_angle.length = s.history_angle.length + 5 := by
  obtain ⟨-, h2, h3, -⟩ :=
    runAux_upOnly inputs s.max_trials 0 s ⟨hrev, by rw [hdir]; simp⟩
  rw [run] at *
  rw [h2, h3, h5]
  exact ⟨rfl, rfl⟩

/-- Witness for `session_five_records`: the default start state with
`max_trials := 5` and a constant response stream. -/
theorem session_five_records_witness :
    (run (fun _ => ⟨true, false, "1"⟩)
        { initState with max_trials := 5 }).history_correct.length
      = ({ initState with max_trials := 5 } : JndState).history_correct.length
          + 5 ∧
    (run (fun _ => ⟨true, false, "1"⟩)
        { initState with max_trials := 5 }).history_angle.length
      = ({ initState with max_trials := 5 } : JndState).history_angle.length
          + 5 :=
  session_five_records (fun _ => ⟨true, false, "1"⟩)
    { initState with max_trials := 5 } rfl rfl rfl

/-- C10: in any session started with no reversal counted and no prior step
direction, the controller only ever adjusts with `difficulty=False` (the
`'up'` branch): `last_direction` is never `'down'`, the reversal count stays
`0` for the whole session, the reversal-based stop (`reversals ≥ 10`) can
never trigger, and the session appends exactly `max_trials` records, i.e.,
ends only by exhausting `max_trials`. -/
theorem controller_never_steps_down (inputs : ℕ → TrialInput)
    (s : JndState) (hrev : s.reversals = 0)
    (hdir : s.last_direction = none) :
    (run inputs s).reversals = 0 ∧
    (run inputs s).last_direction ≠ some Direction.down ∧
    (run inputs s).history_correct.length
      = s.history_correct.length + s.max_trials := by
  obtain ⟨⟨i1, i2⟩, h2, -, -⟩ :=
    runAux_upOnly inputs s.max_trials 0 s ⟨hrev, by rw [hdir]; simp⟩
  exact ⟨i1, i2, h2⟩

/-- Witness for `controller_never_steps_down` at the default start state. -/
theorem controller_never_steps_down_witness :
    (run (fun _ => ⟨true, false, "1"⟩) initState).reversals = 0 ∧
    (run (fun _ => ⟨true, false, "1"⟩) initState).last_direction
        ≠ some Direction.down ∧
    (run (fun _ => ⟨true, false, "1"⟩) initState).history_correct.length
      = initState.history_correct.length + initState.max_trials :=
  controller_never_steps_down (fun _ => ⟨true, false, "1"⟩) initState rfl rfl

/-- Counterexample to the claimed C1 trajectory: a concrete forced session
(default configuration `start_angle=10, min_angle=0, max_angle=90`; sign
draw always `+1`, order draw always `0`, responses "1","1","2","1","1")
whose correctness pattern is `[correct, correct, incorrect, correct,
correct]`, yet whose probe-angle trajectory is not
`[10, 10, 12.5, 12.5, 12.5, 15.625]`: `correct_streak` is never reset by
the code, so once it has reached 2 every further correct trial steps the
angle again. -/
theorem staircase_pattern_cex :
    (runTrials initState
      [⟨true, false, "1"⟩, ⟨true, false, "1"⟩, ⟨true, false, "2"⟩,
       ⟨true, false, "1"⟩, ⟨true, false, "1"⟩]).history_correct
        = [true, true, false, true, true] ∧
    angleTraj initState
      [⟨true, false, "1"⟩, ⟨true, false, "1"⟩, ⟨true, false, "2"⟩,
       ⟨true, false, "1"⟩, ⟨true, false, "1"⟩]
        ≠ [10, 10, 12.5, 12.5, 12.5, 15.625] := by
  constructor
  · norm_num +decide [runTrials, trial_run, stepStair, adjust_angle,
      is_correct, target_angle, correct_response, initState, min_def,
      max_def]
  · norm_num +decide [angleTraj, runTrials, trial_run, stepStair,
      adjust_angle, is_correct, target_angle, correct_response, initState,
      min_def, max_def]

/-- C1 (amended): from the default configuration, any five trials whose
correctness pattern is `[correct, correct, incorrect, correct, correct]`
produce the probe-angle trajectory `[10, 10, 12.5, 12.5, 15.625, 19.53125]`
and leave the reversal count at `0`: the angle steps up by a factor `1.25`
on the second correct trial and on every correct trial after that, because
the streak is never reset (neither after an adjustment nor on an incorrect
trial), and an incorrect trial leaves the angle unchanged. -/
theorem staircase_pattern_trajectory (i1 i2 i3 i4 i5 : TrialInput)
    (h : (runTrials initState [i1, i2, i3, i4, i5]).history_correct
          = [true, true, false, true, true]) :
    angleTraj initState [i1, i2, i3, i4, i5]
        = [10, 10, 12.5, 12.5, 15.625, 19.53125] ∧
    (runTrials initState [i1, i2, i3, i4, i5]).reversals = 0 := by
  simp only [runTrials, trial_run_history_correct,
    show initState.history_correct = [] from rfl, List.nil_append,
    List.singleton_append, List.cons_append, List.cons.injEq,
    List.nil_eq, and_true] at h
  obtain ⟨e1, e2, e3, e4, e5⟩ := h
  constructor
  · norm_num +decide [angleTraj, runTrials, trial_run_angle,
      trial_run_streak, trial_run_max_angle, e1, e2, e3, e4, e5, min_def,
      show initState.angle = 10 from rfl,
      show initState.correct_streak = 0 from rfl,
      show initState.max_angle = 90 from rfl]
  · have u0 : UpOnly initState := ⟨rfl, by simp [initState]⟩
    have u5 := trial_run_upOnly _ i5 (trial_run_upOnly _ i4
      (trial_run_upOnly _ i3 (trial_run_upOnly _ i2
        (trial_run_upOnly _ i1 u0))))
    simp only [runTrials]
    exact u5.1

/-- Witness for `staircase_pattern_trajectory`: the forced session with
responses "1","1","2","1","1" realises the correctness pattern. -/
theorem staircase_pattern_trajectory_witness :
    angleTraj initState
      [⟨true, false, "1"⟩, ⟨true, false, "1"⟩, ⟨true, false, "2"⟩,
       ⟨true, false, "1"⟩, ⟨true, false, "1"⟩]
        = [10, 10, 12.5, 12.5, 15.625, 19.53125] ∧
    (runTrials initState
      [⟨true, false, "1"⟩, ⟨true, false, "1"⟩, ⟨true, false, "2"⟩,
       ⟨true, false, "1"⟩, ⟨true, false, "1"⟩]).reversals = 0 :=
  staircase_pattern_trajectory _ _ _ _ _ (by
    norm_num +decide [runTrials, trial_run, stepStair, adjust_angle,
      is_correct, target_angle, correct_response, initState, min_def,
      max_def])

/-- Counterexample to C5: constructing a session with inverted angle bounds
(`min_angle = 90 > 0 = max_angle`) succeeds, and constructing the generator
with the non-positive sample rate `-1` succeeds as well — no
`ConfigurationError` (nor any other error) is raised at construction. -/
theorem init_no_validation_cex :
    (0 : ℚ) < 90 ∧
    jnd_init 10 10 90 0
      = Except.ok
        { angle := 10
          min_angle := 90
          max_angle := 0
          max_trials := 10
          correct_streak := 0
          reversals := 0
          last_direction := none
          history_angle := []
          history_correct := [] } ∧
    (-1 : ℝ) ≤ 0 ∧
    generate_ITD_init (-1) 0.0875 343 = Except.ok ⟨-1, 0.0875, 343⟩ := by
  refine ⟨by norm_num, rfl, by norm_num, rfl⟩

/-- C5 (amended): session construction performs no validation at all — for
every choice of arguments, inverted angle bounds and non-positive sample
rates included, both constructors succeed and no error is raised before any
trial runs. -/
theorem init_no_validation :
    (∀ (mt : ℕ) (sa mn mx : ℚ),
      jnd_init mt sa mn mx
        = Except.ok
          { angle := sa
            min_angle := mn
            max_angle := mx
            max_trials := mt
            correct_streak := 0
            reversals := 0
            last_direction := none
            history_angle := []
            history_correct := [] }) ∧
    (∀ sr r c : ℝ, generate_ITD_init sr r c = Except.ok ⟨sr, r, c⟩) :=
  ⟨fun _ _ _ _ => rfl, fun _ _ _ => rfl⟩

/-- `fractional_shift` preserves the length of its input: the output is a
map over `range (len x)`. -/
theorem fractional_shift_length {α : Type} [LinearOrderedField α]
    [FloorRing α] (x : List α) (s : α) :
    (fractional_shift x s).length = x.length := by
  simp only [fractional_shift, List.length_map, List.length_range]

/-- `np_interp` at an integer query point: within the grid it returns the
sample at that index exactly (the interpolation weight degenerates), outside
the grid it returns the zero fill. -/
theorem np_interp_intCast {α : Type} [LinearOrderedField α] [FloorRing α]
    (x : List α) (j : ℤ) :
    np_interp (j : α) x
      = if 0 ≤ j ∧ j < (x.length : ℤ) then x.getD j.toNat 0 else 0 := by
  rcases le_or_lt 0 j with hj | hj
  · rcases lt_or_le j (x.length : ℤ) with hlen | hlen
    · have hg1 : ¬ ((j : α) < 0) := by
        push_neg
        exact_mod_cast hj
      have hg2 : ¬ (((x.length : α) - 1) < (j : α)) := by
        push_neg
        have h : j ≤ (x.length : ℤ) - 1 := by omega
        calc (j : α) ≤ ((((x.length : ℤ) - 1) : ℤ) : α) := by exact_mod_cast h
        _ = (x.length : α) - 1 := by push_cast; ring
      have hcast : ((j.toNat : ℕ) : α) = (j : α) := by
        exact_mod_cast congrArg (fun z : ℤ => (z : α)) (Int.toNat_of_nonneg hj)
      rw [if_pos ⟨hj, hlen⟩]
      unfold np_interp
      rw [if_neg (not_or_intro hg1 hg2)]
      simp only [Int.floor_intCast]
      split
      · rw [hcast]
        ring
      · rfl
    · rw [if_neg (by omega)]
      unfold np_interp
      have hg : ((x.length : α) - 1) < (j : α) := by
        have h : (x.length : ℤ) - 1 < j := by omega
        calc (x.length : α) - 1
            = ((((x.length : ℤ) - 1) : ℤ) : α) := by push_cast; ring
        _ < (j : α) := by exact_mod_cast h
      rw [if_pos (Or.inr hg)]
  · rw [if_neg (by omega)]
    unfold np_interp
    have hg : (j : α) < 0 := by exact_mod_cast hj
    rw [if_pos (Or.inl hg)]

/-- A whole-sample shift moves samples exactly: output index `i` holds the
input sample at `i - s` when that position is inside the signal, else `0`. -/
theorem fractional_shift_getD_int {α : Type} [LinearOrderedField α]
    [FloorRing α] (x : List α) (s : ℤ) (i : ℕ) (hi : i < x.length) :
    (fractional_shift x (s : α)).getD i 0
      = if 0 ≤ (i : ℤ) - s ∧ (i : ℤ) - s < (x.length : ℤ)
        then x.getD ((i : ℤ) - s).toNat 0 else 0 := by
  have hlen : i < (fractional_shift x (s : α)).length := by
    rwa [fractional_shift_length]
  rw [List.getD_eq_getElem _ _ hlen]
  have hstep : (fractional_shift x (s : α))[i]
      = np_interp ((i : α) - (s : α)) x := by
    simp only [fractional_shift]
    rw [List.getElem_map, List.getElem_range]
  rw [hstep]
  have hcast : ((i : α) - (s : α)) = ((((i : ℤ) - s) : ℤ) : α) := by
    push_cast
    ring
  rw [hcast, np_interp_intCast]

/-- C9 (amended): both shift outputs have the same length as the input for
every (fractional) shift amount; and for every whole-sample shift `s`,
shifting by `+s` and then by `-s` reproduces the original signal at every
index at distance at least `|s|` from both ends.  (For genuinely fractional
shifts the round trip applies linear interpolation twice and smooths the
interior samples, so the claim holds only for whole-sample shifts — see the
counterexample.) -/
theorem fractional_shift_props {α : Type} [LinearOrderedField α]
    [FloorRing α] :
    (∀ (x : List α) (s : α), (fractional_shift x s).length = x.length) ∧
    (∀ (x : List α) (s : ℤ) (i : ℕ), s.natAbs ≤ i →
      i + s.natAbs < x.length →
      (fractional_shift (fractional_shift x (s : α)) (-(s : α))).getD i 0
        = x.getD i 0) := by
  refine ⟨fractional_shift_length, ?_⟩
  intro x s i h1 h2
  have hy : i < (fractional_shift x (s : α)).length := by
    rw [fractional_shift_length]
    omega
  have hneg : (-(s : α)) = ((-s : ℤ) : α) := by push_cast; ring
  rw [hneg, fractional_shift_getD_int _ (-s) i hy, fractional_shift_length]
  have hc1 : 0 ≤ (i : ℤ) - -s := by omega
  have hc2 : (i : ℤ) - -s < (x.length : ℤ) := by omega
  rw [if_pos ⟨hc1, hc2⟩]
  have hj : ((i : ℤ) - -s).toNat < x.length := by omega
  rw [fractional_shift_getD_int x s _ hj]
  have hj2 : ((((i : ℤ) - -s).toNat : ℕ) : ℤ) = (i : ℤ) + s := by omega
  rw [hj2]
  have hj3 : (i : ℤ) + s - s = (i : ℤ) := by ring
  rw [hj3]
  rw [if_pos ⟨by omega, by omega⟩]
  simp

/-- Witness for `fractional_shift_props` over `ℚ`: a length-3 signal shifted
by the whole sample `s = 1`, read back at the interior index `1`. -/
theorem fractional_shift_props_witness :
    (fractional_shift ([3, 1, 4] : List ℚ) 2).length
        = ([3, 1, 4] : List ℚ).length ∧
    (fractional_shift (fractional_shift ([3, 1, 4] : List ℚ) ((1 : ℤ) : ℚ))
        (-((1 : ℤ) : ℚ))).getD 1 0
      = ([3, 1, 4] : List ℚ).getD 1 0 :=
  ⟨(@fractional_shift_props ℚ _ _).1 [3, 1, 4] 2,
   (@fractional_shift_props ℚ _ _).2 [3, 1, 4] 1 1 (by decide) (by decide)⟩

/-- Counterexample to C9 as stated: for `x = [0, 1, 0]` and the fractional
shift `s = 1/2`, index `1` lies at distance `1 ≥ |s|` from both ends — i.e.
outside zero-padded edge regions of width `|s|` (and even of width `1`) —
yet the `+s` / `-s` round trip yields `1/2 ≠ 1` there: the two linear
interpolations smooth the sample. -/
theorem fractional_shift_roundtrip_cex :
    |(1/2 : ℚ)| ≤ 1 ∧
    1 + |(1/2 : ℚ)| ≤ ((([0, 1, 0] : List ℚ).length : ℚ) - 1) ∧
    (fractional_shift (fractional_shift ([0, 1, 0] : List ℚ) (1/2))
        (-(1/2))).getD 1 0
      ≠ ([0, 1, 0] : List ℚ).getD 1 0 := by
  have h1 : fractional_shift ([0, 1, 0] : List ℚ) (1/2) = [0, 1/2, 1/2] := by
    norm_num [fractional_shift, np_interp, List.range_succ]
  have h2 : fractional_shift ([0, (1:ℚ)/2, 1/2]) (-(1/2)) = [1/4, 1/2, 0] := by
    norm_num [fractional_shift, np_interp, List.range_succ]
  refine ⟨by rw [abs_of_nonneg] <;> norm_num,
    by rw [abs_of_nonneg] <;> norm_num, ?_⟩
  rw [h1, h2]
  norm_num

/-- The map `x ↦ x + sin x` is monotone: `sin` is 1-Lipschitz. -/
theorem add_sin_monotone : Monotone (fun x : ℝ => x + Real.sin x) := by
  intro a b hab
  have key : |Real.sin b - Real.sin a| ≤ |b - a| := by
    rw [Real.sin_sub_sin]
    calc |2 * Real.sin ((b - a) / 2) * Real.cos ((b + a) / 2)|
        = 2 * |Real.sin ((b - a) / 2)| * |Real.cos ((b + a) / 2)| := by
          rw [abs_mul, abs_mul]
          norm_num
      _ ≤ 2 * |(b - a) / 2| * 1 := by
          apply mul_le_mul
          · exact mul_le_mul_of_nonneg_left Real.abs_sin_le_abs (by norm_num)
          · exact Real.abs_cos_le_one _
          · positivity
          · positivity
      _ = |b - a| := by
          rw [abs_div, abs_two]
          ring
  have h1 : -|b - a| ≤ Real.sin b - Real.sin a := (abs_le.mp key).1
  have h2 : |b - a| = b - a := abs_of_nonneg (sub_nonneg.mpr hab)
  simp only
  linarith [h1, h2.le]

/-- Negating the argument of a symmetric clip negates the result. -/
theorem clip_neg (t b : ℝ) (hb : 0 ≤ b) :
    min (max (-t) (-b)) b = -(min (max t (-b)) b) := by
  rcases le_total t (-b) with h1 | h1
  · rw [max_eq_left (show -b ≤ -t by linarith),
      min_eq_right (show b ≤ -t by linarith), max_eq_right h1,
      min_eq_left (show -b ≤ b by linarith)]
    ring
  · rcases le_total t b with h2 | h2
    · rw [max_eq_left (show -b ≤ -t by linarith),
        min_eq_left (show -t ≤ b by linarith), max_eq_left h1,
        min_eq_left h2]
    · rw [max_eq_right (show -t ≤ -b by linarith),
        min_eq_left (show -b ≤ b by linarith),
        max_eq_left (show -b ≤ t by linarith), min_eq_right h2]

/-- The Woodworth delay is monotone non-decreasing in the (signed) angle:
the radian conversion, the symmetric clip and `θ + sin θ` are monotone, and
the factor `r/c` is non-negative. -/
theorem woodworth_monotone : Monotone (woodworth_model defaultGen) := by
  intro a b hab
  unfold woodworth_model defaultGen
  dsimp only
  apply mul_le_mul_of_nonneg_left _ (by norm_num : (0 : ℝ) ≤ 0.0875 / 343)
  apply add_sin_monotone
  have h : a * (Real.pi / 180) ≤ b * (Real.pi / 180) :=
    mul_le_mul_of_nonneg_right hab (by positivity)
  exact min_le_min (max_le_max h le_rfl) le_rfl

/-- The Woodworth delay vanishes at azimuth `0`. -/
theorem woodworth_model_zero : woodworth_model defaultGen 0 = 0 := by
  unfold woodworth_model defaultGen
  dsimp only
  have hpi := Real.pi_pos
  rw [zero_mul, max_eq_left (by linarith), min_eq_left (by linarith),
    Real.sin_zero]
  ring

/-- The Woodworth delay is an odd function of the angle: mirroring the
source to the other hemifield flips the sign of the returned delay. -/
theorem woodworth_model_neg (θ : ℝ) :
    woodworth_model defaultGen (-θ) = -(woodworth_model defaultGen θ) := by
  unfold woodworth_model
  dsimp only
  have h1 : -θ * (Real.pi / 180) = -(θ * (Real.pi / 180)) := by ring
  rw [h1, clip_neg _ _ (by positivity), Real.sin_neg]
  ring

/-- Counterexample to C2 as stated: `-90` lies in `[-90, 90]`, yet the
delay the Woodworth model returns there is negative (it equals
`(r/c) * (-π/2 - 1) < 0`), so the returned value is not `≥ 0` on the whole
range — the sign of the source angle is carried by the returned delay and
is only stripped by the caller (`apply_itd` takes `abs`). -/
theorem woodworth_negative_cex :
    -90 ≤ (-90 : ℝ) ∧ (-90 : ℝ) ≤ 90 ∧
    woodworth_model defaultGen (-90) < 0 := by
  refine ⟨le_refl _, by norm_num, ?_⟩
  unfold woodworth_model defaultGen
  dsimp only
  have hpi := Real.pi_pos
  have h1 : (-90 : ℝ) * (Real.pi / 180) = -(Real.pi / 2) := by ring
  rw [h1, max_self, min_eq_left (by linarith), Real.sin_neg,
    Real.sin_pi_div_two]
  exact mul_neg_of_pos_of_neg (by norm_num) (by linarith)

/-- C2 (amended): the magnitude of the Woodworth delay is monotone
non-decreasing in the magnitude of the azimuth, and the returned delay
itself is non-negative for non-negative angles (for negative angles the
returned value is negative, by oddness). -/
theorem woodworth_abs_monotone :
    (∀ θ : ℝ, 0 ≤ θ → 0 ≤ woodworth_model defaultGen θ) ∧
    (∀ θ1 θ2 : ℝ, |θ1| ≤ |θ2| →
      |woodworth_model defaultGen θ1| ≤ |woodworth_model defaultGen θ2|) := by
  have hnn : ∀ θ : ℝ, 0 ≤ θ → 0 ≤ woodworth_model defaultGen θ := by
    intro θ hθ
    have h := woodworth_monotone hθ
    rwa [woodworth_model_zero] at h
  have habs : ∀ θ : ℝ,
      |woodworth_model defaultGen θ| = woodworth_model defaultGen |θ| := by
    intro θ
    rcases le_total 0 θ with h | h
    · rw [abs_of_nonneg h, abs_of_nonneg (hnn θ h)]
    · have h2 : woodworth_model defaultGen θ
          = -(woodworth_model defaultGen (-θ)) := by
        rw [woodworth_model_neg]
        ring
      rw [abs_of_nonpos h, h2, abs_neg,
        abs_of_nonneg (hnn (-θ) (by linarith))]
  refine ⟨hnn, ?_⟩
  intro θ1 θ2 h
  rw [habs, habs]
  exact woodworth_monotone h

/-- Witness for `woodworth_abs_monotone` at the angles `30` and `60`. -/
theorem woodworth_abs_monotone_witness :
    0 ≤ woodworth_model defaultGen 30 ∧
    |woodworth_model defaultGen 30| ≤ |woodworth_model defaultGen 60| :=
  ⟨woodworth_abs_monotone.1 30 (by norm_num),
   woodworth_abs_monotone.2 30 60
     (by rw [abs_of_nonneg, abs_of_nonneg] <;> norm_num)⟩

/-- C3: with the level cue disabled (`use_ild = False`), `apply_itd`
returns no stereo signal at all — the Python `use_ild=False` path has no
return statement, so the call evaluates to `None`, contradicting the
function's own docstring ("returns a [N, 2] stereo"). -/
theorem apply_itd_no_ild_none (g : generate_ITD) (mono_signal : List ℝ)
    (angle_deg : ℝ) :
    apply_itd g mono_signal angle_deg false = Except.ok none := by
  simp [apply_itd]

/-- Unfolding of `apply_itd` on the `use_ild = True` path, in terms of the
pre-normalisation stereo pair. -/
theorem apply_itd_true (g : generate_ITD) (mono_signal : List ℝ)
    (angle_deg : ℝ) :
    apply_itd g mono_signal angle_deg true
      = if (ild_stereo g mono_signal angle_deg).isEmpty then
          Except.error "zero-size array to reduction operation"
        else
          Except.ok (some
            (if 1 < peakAbs (ild_stereo g mono_signal angle_deg) then
              (ild_stereo g mono_signal angle_deg).map
                (fun p => (p.1 / peakAbs (ild_stereo g mono_signal angle_deg),
                  p.2 / peakAbs (ild_stereo g mono_signal angle_deg)))
            else ild_stereo g mono_signal angle_deg)) := rfl

/-- One step of the peak fold. -/
theorem peakAbs_cons (p : ℝ × ℝ) (l : List (ℝ × ℝ)) :
    peakAbs (p :: l) = max |p.1| (max |p.2| (peakAbs l)) := rfl

/-- The peak is non-negative. -/
theorem peakAbs_nonneg (st : List (ℝ × ℝ)) : 0 ≤ peakAbs st := by
  induction st with
  | nil => exact le_refl 0
  | cons p l ih =>
    rw [peakAbs_cons]
    exact le_max_of_le_right (le_max_of_le_right ih)

/-- Every sample's magnitude, in either channel, is bounded by the peak. -/
theorem mem_le_peakAbs (st : List (ℝ × ℝ)) (p : ℝ × ℝ) (hp : p ∈ st) :
    |p.1| ≤ peakAbs st ∧ |p.2| ≤ peakAbs st := by
  induction st with
  | nil => cases hp
  | cons q l ih =>
    rw [peakAbs_cons]
    rcases List.mem_cons.mp hp with h | h
    · subst h
      exact ⟨le_max_left _ _, le_max_of_le_right (le_max_left _ _)⟩
    · obtain ⟨h1, h2⟩ := ih h
      exact ⟨le_max_of_le_right (le_max_of_le_right h1),
        le_max_of_le_right (le_max_of_le_right h2)⟩

/-- The peak is at most `b` when every sample is, for non-negative `b`. -/
theorem peakAbs_le (st : List (ℝ × ℝ)) (b : ℝ) (hb : 0 ≤ b)
    (h : ∀ p ∈ st, |p.1| ≤ b ∧ |p.2| ≤ b) : peakAbs st ≤ b := by
  induction st with
  | nil => exact hb
  | cons q l ih =>
    rw [peakAbs_cons]
    obtain ⟨h1, h2⟩ := h q (List.mem_cons_self q l)
    exact max_le h1 (max_le h2 (ih fun p hp => h p (List.mem_cons_of_mem q hp)))

/-- C4: every stereo signal `apply_itd` actually returns has peak absolute
amplitude at most `1` (exactly, so in particular at most `1 + ε`), and
normalisation never boosts: whenever the pre-normalisation stereo pair
already has peak at most `1`, it is returned unchanged — division by the
peak happens only when the peak exceeds `1`. -/
theorem apply_itd_peak_norm :
    (∀ (g : generate_ITD) (mono : List ℝ) (θ : ℝ) (u : Bool),
      peakLeOne (apply_itd g mono θ u)) ∧
    (∀ (g : generate_ITD) (mono : List ℝ) (θ : ℝ),
      ild_stereo g mono θ ≠ [] →
      peakAbs (ild_stereo g mono θ) ≤ 1 →
      apply_itd g mono θ true = Except.ok (some (ild_stereo g mono θ))) := by
  constructor
  · intro g mono θ u
    cases u with
    | false => simp [apply_itd, peakLeOne]
    | true =>
      rw [apply_itd_true]
      by_cases he : (ild_stereo g mono θ).isEmpty
      · rw [if_pos he]
        trivial
      · rw [if_neg he]
        by_cases hp : 1 < peakAbs (ild_stereo g mono θ)
        · rw [if_pos hp]
          show peakAbs _ ≤ 1
          apply peakAbs_le _ _ zero_le_one
          intro p hpm
          obtain ⟨q, hq, rfl⟩ := List.mem_map.mp hpm
          obtain ⟨hq1, hq2⟩ := mem_le_peakAbs _ q hq
          have hpk : (0 : ℝ) < peakAbs (ild_stereo g mono θ) := by linarith
          constructor
          · rw [abs_div, abs_of_nonneg hpk.le]
            exact div_le_one_of_le₀ hq1 hpk.le
          · rw [abs_div, abs_of_nonneg hpk.le]
            exact div_le_one_of_le₀ hq2 hpk.le
        · rw [if_neg hp]
          show peakAbs _ ≤ 1
          exact le_of_not_lt hp
  · intro g mono θ hne hle
    rw [apply_itd_true,
      if_neg (by rw [List.isEmpty_iff]; exact hne),
      if_neg (not_lt.mpr hle)]

/-- Interpolating the all-zero one-sample signal gives `0` everywhere. -/
theorem np_interp_zero_signal (q : ℝ) : np_interp q [(0 : ℝ)] = 0 := by
  have hget : ∀ k : ℕ, ([(0 : ℝ)]).getD k 0 = 0 := by
    intro k
    cases k <;> simp [List.getD]
  unfold np_interp
  split
  · rfl
  · dsimp only
    split
    · rw [hget, hget]
      ring
    · rw [hget]

/-- Any shift of the one-sample zero signal is the zero signal. -/
theorem fractional_shift_zero_signal (s : ℝ) :
    fractional_shift [(0 : ℝ)] s = [0] := by
  simp only [fractional_shift, List.length_cons, List.length_nil,
    List.range_succ, List.range_zero, List.map_append, List.map_cons,
    List.map_nil, List.nil_append, np_interp_zero_signal]

/-- The pre-normalisation stereo pair of the one-sample zero signal at
azimuth `0` is a single zero sample pair. -/
theorem ild_stereo_zero_signal : ild_stereo defaultGen [0] 0 = [(0, 0)] := by
  unfold ild_stereo
  dsimp only
  rw [if_pos (le_refl (0 : ℝ))]
  rw [fractional_shift_zero_signal, fractional_shift_zero_signal]
  simp

/-- Witness for `apply_itd_peak_norm`: the one-sample zero signal at
azimuth `0` has pre-normalisation peak `0 ≤ 1` and is returned unchanged. -/
theorem apply_itd_peak_norm_witness :
    peakLeOne (apply_itd defaultGen [0] 0 true) ∧
    apply_itd defaultGen [0] 0 true
      = Except.ok (some (ild_stereo defaultGen [0] 0)) :=
  ⟨apply_itd_peak_norm.1 defaultGen [0] 0 true,
   apply_itd_peak_norm.2 defaultGen [0] 0
     (by rw [ild_stereo_zero_signal]; simp)
     (by rw [ild_stereo_zero_signal, peakAbs_cons]; simp [peakAbs])⟩
